import Mathlib

set_option maxHeartbeats 1000000

/-!
Verification development for the `parser_costex` repository (Catalog
Extraction Engine).  The Python sources under scrutiny are `main.py`
(Stage-4 loop, payload normalizer, checkpoint), `write.py` (deduplicator),
`deteil_product.py` (per-identifier detail flow, overlay parsing) and
`products.py` (network sniffer / identifier extraction).

Modelling conventions:
* Python floats are modelled as exact rationals (`ℚ`); the monetary strings
  parsed by this program are short decimals, and every concrete value used
  in a theorem below is exactly representable in binary floating point, so
  the rational model agrees with the float semantics at every point where a
  theorem evaluates it.
* Python dicts are modelled as insertion-ordered association lists where
  assignment to an existing key replaces the value in place (the semantics
  of CPython 3.7+ dicts).
* Browser side effects are modelled by an explicit "world" record holding
  the DOM facets the code reads, plus an action trace for the cleanup
  steps the code performs.
-/

namespace Costex

/-- A Python value as it occurs in this program's row dictionaries:
strings, ints, floats (as exact rationals), or a list of row dicts
(the `rows` entry of a modal payload). -/
inductive Val : Type where
  | str : String → Val
  | int : ℤ → Val
  | rat : ℚ → Val
  | rows : List (List (String × Val)) → Val

/-- A Python dict of this program: an insertion-ordered association list. -/
abbrev Dict := List (String × Val)

/-- First-match association lookup: models Python `d.get(k)`. -/
def lget {α β : Type} [DecidableEq α] (k : α) : List (α × β) → Option β
  | [] => none
  | (k', v) :: rest => if k = k' then some v else lget k rest

/-- Python dict assignment `d[k] = v`: replace in place if the key exists
(keeping its position), else append. -/
def upsert {α β : Type} [DecidableEq α] (k : α) (v : β) : List (α × β) → List (α × β)
  | [] => [(k, v)]
  | (k', v') :: rest => if k' = k then (k, v) :: rest else (k', v') :: upsert k v rest

/-- Python dict merge `{**a, **b}`: entries of `b` assigned over `a` in order. -/
def dmerge (a b : Dict) : Dict := b.foldl (fun m kv => upsert kv.1 kv.2 m) a

/-- Python truthiness of a value. -/
def pyTruthy : Val → Bool
  | .str s => !s.isEmpty
  | .int n => n ≠ 0
  | .rat q => q ≠ 0
  | .rows rs => !rs.isEmpty

/-- Python truthiness of `d.get(k)` (missing key → `None` → falsy). -/
def truthyOpt : Option Val → Bool
  | some v => pyTruthy v
  | none => false

/-- Python `x or default` on an optional value. -/
def pyOr (a : Option Val) (dflt : Val) : Val :=
  match a with
  | some v => if pyTruthy v then v else dflt
  | none => dflt

/-- Python `str(x)` restricted to the values this program stringifies.
Identifiers are always strings or ints here; the float and list renderings
are abstracted (a float repr round-trips, a list repr starts with `[` and
never matches the identifier shape, so neither abstraction is observable
in any theorem below). -/
def pyStrVal : Val → String
  | .str s => s
  | .int n => toString n
  | .rat q => toString q
  | .rows _ => "[...]"

/-- Python `s.strip()` (ASCII whitespace, as produced by this program). -/
def pyStrip (s : String) : String :=
  String.mk (((s.data.dropWhile Char.isWhitespace).reverse.dropWhile Char.isWhitespace).reverse)

/-- The numeric value of a list of decimal digit characters. -/
def digitsToNat (ds : List Char) : ℕ :=
  ds.foldl (fun a c => 10 * a + (c.toNat - 48)) 0

/-- Python `int(s)`: optional surrounding whitespace, optional sign, then
decimal digits; anything else raises (→ `none`). -/
def pyIntOfString (s : String) : Option ℤ :=
  match (pyStrip s).data with
  | [] => none
  | '-' :: ds => if !ds.isEmpty && ds.all Char.isDigit then some (-(digitsToNat ds : ℤ)) else none
  | '+' :: ds => if !ds.isEmpty && ds.all Char.isDigit then some ((digitsToNat ds : ℤ)) else none
  | ds => if ds.all Char.isDigit then some ((digitsToNat ds : ℤ)) else none

/-- First match of the regex `(-?\d+(\.\d+)?)` in a character stream, as a
rational: scan left to right; a match starts at a digit, or at `-`
immediately followed by a digit; the integer part is maximal, and a
fractional part is taken only when `.` is followed by at least one digit. -/
def scanNum : List Char → Option ℚ
  | [] => none
  | c :: rest =>
    if c.isDigit then
      let ds := (c :: rest).takeWhile Char.isDigit
      let rest2 := (c :: rest).dropWhile Char.isDigit
      let ip : ℚ := (digitsToNat ds : ℚ)
      match rest2 with
      | '.' :: r3 =>
        let fs := r3.takeWhile Char.isDigit
        if fs.isEmpty then some ip
        else some (ip + (digitsToNat fs : ℚ) / (10 : ℚ) ^ fs.length)
      | _ => some ip
    else if c = '-' then
      match rest with
      | d :: _ =>
        if d.isDigit then (scanNum rest).map (fun q => -q)
        else scanNum rest
      | [] => none
    else scanNum rest

/-- `main.py _money_to_float`: falsy input → `None`; else stringify, drop
thousands separators, and take the first signed decimal token. -/
def money_to_float (v : Val) : Option ℚ :=
  if !pyTruthy v then none
  else match v with
    | .str s => scanNum (s.data.filter (fun c => c ≠ ','))  -- str(s).replace(",", "")
    | .int n => some (n : ℚ)      -- str(n) regex-parses back to n
    | .rat q => some q            -- repr(float) regex-parses back to the same value
    | .rows _ => none             -- a list-valued price never occurs in this flow

/-- `round(x, 2)` of Python on the rational model.  (Python rounds float
ties to even; the two differ only at exact `.xx5` rationals, which binary
floats never produce, and no theorem below evaluates such a tie.) -/
def roundQ2 (q : ℚ) : ℚ := ((round (q * 100) : ℤ) : ℚ) / 100

/-- Python `int(x)` applied to an optional row value (`None` stays `None`,
a failing conversion is caught and becomes `None`), as in `_calc_totals`. -/
def pyIntOpt : Option Val → Option ℤ
  | none => none
  | some (.int n) => some n
  | some (.str s) => pyIntOfString s
  | some (.rat q) => some (q.num.tdiv q.den)  -- int(float) truncates toward zero
  | some (.rows _) => none                    -- int(list) raises TypeError

/-- The first two lines of `main.py _calc_totals`: default the requested
quantity to the 9999 sentinel when falsy. -/
def defaultRequestedQty (row : Dict) : Dict :=
  if truthyOpt (lget "Requested Qty" row) then row
  else upsert "Requested Qty" (Val.int 9999) row

/-- `main.py _calc_totals`: default the requested quantity to the 9999
sentinel when falsy, then synthesize the two totals when the unit price
parses and the respective quantity converts to an int. -/
def calc_totals (row : Dict) : Dict :=
  let row := defaultRequestedQty row
  let unit_price := money_to_float ((lget "Unit Price" row).getD (Val.str ""))
  let req_qty_i := pyIntOpt (lget "Requested Qty" row)
  let qty_av_i := pyIntOpt (lget "Qty Available" row)
  let row := match unit_price, req_qty_i with
    | some up, some n => upsert "Total Price (Requested)" (Val.rat (roundQ2 (up * (n : ℚ)))) row
    | _, _ => row
  match unit_price, qty_av_i with
    | some up, some n => upsert "Total Price (Available)" (Val.rat (roundQ2 (up * (n : ℚ)))) row
    | _, _ => row

/-- One work-queue row from `Products_ALL.csv` (`iter_parts_from_csv`). -/
structure Item : Type where
  category_url : String
  subcategory_name : String
  subcategory_url : String
  part_no : String

/-- Python `(a or b or "").strip()` on two optional dict values; a truthy
non-string operand would raise `AttributeError`, modelled as an error. -/
def strip_or_chain (a b : Option Val) : Except String String :=
  match (if truthyOpt a then a else if truthyOpt b then b else none) with
  | some (Val.str s) => .ok (pyStrip s)
  | some _ => .error "AttributeError: strip on non-string"
  | none => .ok ""

/-- Is `price_data.get("mode")` the string `"modal"`? -/
def isModeModal : Option Val → Bool
  | some (Val.str s) => s = "modal"
  | _ => false

/-- `price_data.get("rows") or []`, restricted to the list shape iterated
by the modal branch (any other value is never produced by this program). -/
def rowsOf : Option Val → List Dict
  | some (Val.rows rs) => rs
  | _ => []

/-- `main.py normalize_price_rows`: build the base context record, resolve
the reference (a non-empty detail-asserted `Part No`/`part_no` overrides the
submitted identifier), then either fan out per modal sub-row or emit the
single flattened record. -/
def normalize_price_rows (item : Item) (price_data : Dict) : Except String (List Dict) :=
  let base : Dict :=
    [("category_url", Val.str item.category_url),
     ("subcategory_url", Val.str item.subcategory_url),
     ("Category", Val.str item.subcategory_name),
     ("Categories", Val.str item.subcategory_name)]
  match strip_or_chain (lget "Part No" price_data) (lget "part_no" price_data) with
  | .error e => .error e
  | .ok part_from_detail =>
    let base := upsert "part_no"
      (Val.str (if part_from_detail ≠ "" then part_from_detail else item.part_no)) base
    let base := upsert "Requested Qty" (Val.int 9999) base
    if isModeModal (lget "mode" price_data) then
      let rs : List Dict := rowsOf (lget "rows" price_data)
      let out := rs.map (fun r => calc_totals (dmerge base r))
      .ok (if out.isEmpty then [calc_totals base] else out)
    else
      let cleaned := price_data.filter (fun kv => kv.1 != "rows" && kv.1 != "mode")
      let cleaned := cleaned.filter (fun kv => kv.1 != "Part No")  -- cleaned.pop("Part No", None)
      .ok [calc_totals (dmerge base cleaned)]

/-- `main.py _jsonl_processed_partnos`: the references already recorded in
the checkpoint log (`str(r.get("part_no") or "").strip()`, kept when
non-empty).  The Python set is modelled as a list used only for
membership. -/
def jsonl_processed_partnos (log : List Dict) : List String :=
  log.filterMap (fun r =>
    let p := pyStrip (pyStrVal (pyOr (lget "part_no" r) (Val.str "")))
    if p = "" then none else some p)

/-- Outcome of a Stage-4 pass or run: the checkpoint log contents (the
JSONL file), the error that ended it (if any), and the trace of
`(variant, part_no)` extraction attempts actually performed. -/
structure Stage4Out : Type where
  log : List Dict
  err : Option String
  attempts : List (String × String)

/-- The per-variant Stage-4 loop body of `main.py run_stage4_with_variants`
(lines 530-551): iterate the queue; with resume enabled skip identifiers
already in `processed`; otherwise run the per-identifier extraction
(`fill_price_inquiry_form` + `open_detail_update_qty_and_collect`, the
`step` oracle) and normalization, appending the new rows to the JSONL log.
There is no per-identifier handler: the first exception ends the pass. -/
def stage4_pass (step : String → Item → Except String Dict) (resume : Bool) (variant : String) :
    List Item → List String → List Dict → Stage4Out
  | [], _, log => ⟨log, none, []⟩
  | item :: rest, processed, log =>
    if resume && decide (item.part_no ∈ processed) then
      stage4_pass step resume variant rest processed log
    else
      match step variant item with
      | .error e => ⟨log, some e, [(variant, item.part_no)]⟩
      | .ok pd =>
        match normalize_price_rows item pd with
        | .error e => ⟨log, some e, [(variant, item.part_no)]⟩
        | .ok new_rows =>
          let r := stage4_pass step resume variant rest (item.part_no :: processed) (log ++ new_rows)
          ⟨r.log, r.err, (variant, item.part_no) :: r.attempts⟩

/-- `main.py run_stage4_with_variants`: try the whole pass once per session
variant; a failed pass keeps the JSONL log accumulated so far and retries
under the next variant (recomputing the resume set from the log); when
every variant has failed the run raises (fatal). -/
def run_stage4 (step : String → Item → Except String Dict) (queue : List Item) (resume : Bool) :
    List String → List Dict → Stage4Out
  | [], log => ⟨log, some "Stage 4 failed for all variants", []⟩
  | v :: vs, log =>
    let processed := if resume then jsonl_processed_partnos log else []
    let r := stage4_pass step resume v queue processed log
    match r.err with
    | none => ⟨r.log, none, r.attempts⟩
    | some _ =>
      let r2 := run_stage4 step queue resume vs r.log
      ⟨r2.log, r2.err, r.attempts ++ r2.attempts⟩

/-! ### `deteil_product.py`: the per-identifier detail flow -/

/-- The storefront origin (`deteil_product.py ORIGIN`). -/
def ORIGIN : String := "https://www.ctpsales.costex.com:11443"

/-- Does `s` start with the string `p`? (Python `str.startswith`.) -/
def strStartsWith (s p : String) : Bool := p.data.isPrefixOf s.data

/-- Python `s.rstrip(":")`: drop trailing colon characters. -/
def rstripColon (s : String) : String :=
  String.mk (s.data.reverse.dropWhile (fun c => c = ':')).reverse

/-- `deteil_product.py _abs_url`: empty stays empty; absolute URLs kept;
relative URLs prefixed with the origin. -/
def abs_url (url : String) : String :=
  if url = "" then ""
  else
    let u := pyStrip url
    if strStartsWith u "http://" || strStartsWith u "https://" then u else ORIGIN ++ u

/-- `_parse_th_th_rows_in_scope`: each table row with at least two `th`
cells contributes `raw[k] = v` with `k` stripped of whitespace and trailing
colons, skipping empty keys.  A row is its list of `th` inner texts. -/
def parse_th_th_rows (rows : List (List String)) : List (String × String) :=
  rows.foldl
    (fun raw tr =>
      match tr with
      | k :: v :: _ =>
        let k := rstripColon (pyStrip k)
        let v := pyStrip v
        if k ≠ "" then upsert k v raw else raw
      | _ => raw)
    []

/-- Python `a or b or ... or ""` over optional strings (missing and empty
are both falsy). -/
def firstNonempty : List (Option String) → String
  | [] => ""
  | some s :: rest => if s ≠ "" then s else firstNonempty rest
  | none :: rest => firstNonempty rest

/-- One conditional assignment `if s: out[k] = s.strip()` of
`_normalize_specs`.  Assignments to fresh keys in insertion order are
concatenation, so the whole dict is the concatenation of these. -/
def entryIfStr (k : String) (s : String) : Dict :=
  if s ≠ "" then [(k, Val.str (pyStrip s))] else []

/-- `deteil_product.py _normalize_specs`: map the raw th/th key-value table
onto the canonical spec fields (each stored stripped, only when the raw
`or`-chain is non-empty); `Requested Qty` is converted with `int(...)`, a
failing conversion being swallowed.  The source assigns the fields one by
one in this order into a fresh dict; as the keys are distinct literals
this equals the concatenation below. -/
def normalize_specs (raw : List (String × String)) : Dict :=
  let part_no := firstNonempty [lget "Part No." raw, lget "Part No" raw, lget "Part Number" raw]
  let desc := firstNonempty [lget "Description" raw, lget "Desc" raw]
  let lbs := firstNonempty [lget "Weight (lbs)" raw, lget "Lbs" raw]
  let width := firstNonempty [lget "Width (cm)" raw, lget "Width" raw]
  let height := firstNonempty [lget "Height (cm)" raw, lget "Height" raw]
  let depth := firstNonempty [lget "Depth (cm)" raw, lget "Depth" raw]
  let rq := firstNonempty [lget "Requested Qty" raw]
  entryIfStr "part_no" part_no ++ entryIfStr "Title" desc ++ entryIfStr "Lbs" lbs ++
    entryIfStr "Width" width ++ entryIfStr "Height" height ++ entryIfStr "Depth" depth ++
    (match (if rq ≠ "" then pyIntOfString (pyStrip rq) else none) with
     | some n => [("Requested Qty", Val.int n)]
     | none => [])

/-- The DOM facets of the `#myModal` overlay that
`_parse_modal_close_delete` reads: the two scopes of th/th spec rows, the
location table rows (`table.border.desktop-view`, as `td` texts), and the
product image `src`. -/
structure ModalContent : Type where
  specRowsScoped : List (List String)
  specRowsAll : List (List String)
  locRows : List (List String)
  imageSrc : Option String

/-- `_extract_unit_price_from_modal_locations`: the third cell of the
first location row, when that row has at least three cells; else `""`. -/
def extract_unit_price_from_modal_locations (locRows : List (List String)) : String :=
  match locRows with
  | [] => ""
  | tds :: _ => if 3 ≤ tds.length then pyStrip (tds.getD 2 "") else ""

/-- `_extract_qty_available_from_modal_locations`: the fifth cell of the
first location row, when present and all digits. -/
def extract_qty_available_from_modal_locations (locRows : List (List String)) : Option ℤ :=
  match locRows with
  | [] => none
  | tds :: _ =>
    if 5 ≤ tds.length then
      let av := pyStrip (tds.getD 4 "")
      if !av.isEmpty && av.data.all Char.isDigit then some ((digitsToNat av.data : ℤ)) else none
    else none

/-- `_extract_image_from_modal`: the image `src`, absolutized. -/
def extract_image_from_modal (mc : ModalContent) : String :=
  match mc.imageSrc with
  | some src => if src ≠ "" then abs_url src else ""
  | none => ""

/-- The data-collection part of `_parse_modal_close_delete`: the spec table
(scoped, falling back to the whole overlay), image, and the unit price and
available quantity taken from the FIRST location row only.  Note that the
result is a single flat record: no `mode` tag and no `rows` list is ever
produced. -/
def parse_modal_data (mc : ModalContent) : Dict :=
  let raw := parse_th_th_rows mc.specRowsScoped
  let raw := if raw.isEmpty then parse_th_th_rows mc.specRowsAll else raw
  let out := normalize_specs raw
  let img_url := extract_image_from_modal mc
  let out := if img_url ≠ "" then upsert "Image URL" (Val.str img_url) out else out
  let unit_price := extract_unit_price_from_modal_locations mc.locRows
  let out := if unit_price ≠ "" then upsert "Unit Price" (Val.str unit_price) out else out
  match extract_qty_available_from_modal_locations mc.locRows with
  | some qa => upsert "Qty Available" (Val.int qa) out
  | none => out

/-- The cleanup / navigation actions `open_detail_update_qty_and_collect`
can attempt.  `dismissOverlay` is `_close_modal` (cancel control or close
button); `closeModal` / `closeFancybox` are the fault-tolerant
`close_modal_if_present` / `close_fancybox_if_present`; `returnToQuote` is
`return_to_quote_page`; `deleteItem` is `delete_current_item`. -/
inductive Action : Type where
  | closeModal
  | closeFancybox
  | dismissOverlay
  | returnToQuote
  | deleteItem
deriving DecidableEq

/-- The behaviour of the remote UI during one invocation of
`open_detail_update_qty_and_collect`, as observed through the waits and
extractors the code runs.  The best-effort extractors
(`extract_quote_table_and_qty_from_detail_view`,
`extract_from_part_details_page`, `extract_product_meta_from_detail`) never
raise, so their results are carried as data. -/
structure DetailWorld : Type where
  /-- `wait_modal_open(page, 5000)` at entry succeeds. -/
  modalEarly : Bool
  /-- `wait_modal_open(page, 15000)` inside `_parse_modal_close_delete` succeeds. -/
  modalOnParse : Bool
  /-- what the overlay contains when parsed. -/
  modal : ModalContent
  /-- the Detail View button becomes visible (its `wait_for` raises otherwise). -/
  detailBtnVisible : Bool
  /-- `wait_detail_or_modal(page, 15000)` after clicking Detail View succeeds. -/
  signalAfterDetail : Bool
  /-- `wait_modal_open(page, 2000)` after Detail View succeeds. -/
  modalAfterDetail : Bool
  /-- the inline qty input becomes visible. -/
  qtyInputVisible : Bool
  /-- some Update Qty candidate control could be clicked (incl. the JS fallback). -/
  updateClickable : Bool
  /-- `wait_modal_open(page, 3000)` after Update Qty succeeds. -/
  modalAfterUpdate : Bool
  /-- result of `extract_quote_table_and_qty_from_detail_view` (total, best effort). -/
  preMore : Dict
  /-- the browser ended up on `partDetails1.php`. -/
  onPartDetails : Bool
  /-- result of `extract_from_part_details_page` (total, best effort). -/
  detailsNorm : Dict
  /-- result of `extract_product_meta_from_detail` (total, best effort). -/
  meta : Dict
  /-- `return_to_quote_page` completes without raising. -/
  returnOk : Bool

/-- `_parse_modal_close_delete`: require the overlay to be open (else
raise), collect its data, then dismiss the overlay, return to the quote
page and remove the item.  The trailing cleanup calls run only on this
(successful) path; a failing `return_to_quote_page` raises before
`delete_current_item`. -/
def parse_modal_close_delete (w : DetailWorld) : Except String Dict × List Action :=
  if !w.modalOnParse then (.error "Modal expected but not open.", [])
  else
    let out := parse_modal_data w.modal
    if w.returnOk then
      (.ok out, [.dismissOverlay, .returnToQuote, .deleteItem, .closeModal, .closeFancybox])
    else
      (.error "return_to_quote_page failed", [.dismissOverlay, .returnToQuote])

/-- `deteil_product.py open_detail_update_qty_and_collect`: the
per-identifier detail state machine.  Returns the collected raw record (or
the exception that ended the attempt) together with the trace of cleanup /
navigation actions attempted, in order.  The failure exits (`RuntimeError`
raises and the uncaught `wait_for` timeout) terminate immediately: the
function has no `try/finally`, so no cleanup is attempted on them. -/
def open_detail_update_qty_and_collect (w : DetailWorld) : Except String Dict × List Action :=
  let tr : List Action := [.closeModal, .closeFancybox]
  if w.modalEarly then
    let r := parse_modal_close_delete w
    (r.1, tr ++ r.2)
  else
    let tr := tr ++ [Action.closeModal, Action.closeFancybox]
    if !w.detailBtnVisible then
      (.error "TimeoutError: detail button not visible", tr)
    else if !w.signalAfterDetail then
      (.error "After detailView: neither modal nor qty input", tr)
    else if w.modalAfterDetail then
      let r := parse_modal_close_delete w
      (r.1, tr ++ r.2)
    else if !w.qtyInputVisible then
      (.error "detail_view qty input not visible", tr)
    else if !w.updateClickable then
      (.error "Cannot click Update Qty.", tr)
    else if w.modalAfterUpdate then
      let r := parse_modal_close_delete w
      (r.1, tr ++ r.2)
    else
      let pre_more := w.preMore
      let details_norm := if w.onPartDetails then w.detailsNorm else []
      let meta := upsert "Requested Qty" (Val.int 9999) w.meta
      let out := dmerge (dmerge meta pre_more) details_norm
      if w.returnOk then
        (.ok out, tr ++ [.returnToQuote, .deleteItem, .closeModal, .closeFancybox])
      else
        (.error "return_to_quote_page failed", tr ++ [.returnToQuote])

/-! ### `products.py`: the network sniffer -/

/-- First character class of `PART_RE = [A-Z0-9][A-Z0-9\-]{3,30}`. -/
def partClassFirst (c : Char) : Bool := ('A' ≤ c && c ≤ 'Z') || c.isDigit

/-- Continuation character class of `PART_RE`. -/
def partClassRest (c : Char) : Bool := partClassFirst c || c = '-'

/-- `PART_RE.fullmatch(s)`: 4 to 31 characters, first from `[A-Z0-9]`,
rest from `[A-Z0-9-]`. -/
def part_fullmatch (s : String) : Bool :=
  match s.data with
  | [] => false
  | c :: rest =>
    partClassFirst c && rest.all partClassRest && 4 ≤ s.length && s.length ≤ 31

/-- `PART_RE.finditer` over a character stream: leftmost matches, greedy
(up to 31 characters), non-overlapping, resuming after each match.  The
fuel argument bounds the recursion by the stream length. -/
def finditer_go : ℕ → List Char → List String
  | 0, _ => []
  | _, [] => []
  | fuel + 1, c :: rest =>
    if partClassFirst c then
      let run := rest.takeWhile partClassRest
      let len := min run.length 30
      if 3 ≤ len then
        String.mk (c :: run.take len) :: finditer_go fuel (rest.drop len)
      else finditer_go fuel rest
    else finditer_go fuel rest

/-- All `PART_RE` matches in a string (the regex fallback scan). -/
def finditer_parts (s : String) : List String := finditer_go s.data.length s.data

/-- A JSON value, as produced by `json.loads` on a captured response body. -/
inductive JVal : Type where
  | jstr : String → JVal
  | jnum : ℤ → JVal
  | jarr : List JVal → JVal
  | jobj : List (String × JVal) → JVal
  | jbool : Bool → JVal
  | jnull : JVal

/-- Python `str(cell)` on a JSON cell.  Container renderings are abstract:
a Python list/dict repr always contains a bracket or brace, so it can never
match `PART_RE`, and no theorem below observes the abstracted text. -/
def pyStrJ : JVal → String
  | .jstr s => s
  | .jnum n => toString n
  | .jarr _ => "[...]"
  | .jobj _ => "[...]"
  | .jbool b => if b then "True" else "False"
  | .jnull => "None"

/-- The candidate tokens contributed by one row of a `data`/`aaData`/`rows`
array: for a list row, the first five cells; for an object row, all
values; stringified, stripped and filtered by `PART_RE.fullmatch`. -/
def rowTokens (row : JVal) (parts : Finset String) : Finset String :=
  match row with
  | .jarr cells =>
    (cells.take 5).foldl
      (fun ps cell =>
        let s := pyStrip (pyStrJ cell)
        if part_fullmatch s then insert s ps else ps)
      parts
  | .jobj kvs =>
    kvs.foldl
      (fun ps kv =>
        let s := pyStrip (pyStrJ kv.2)
        if part_fullmatch s then insert s ps else ps)
      parts
  | _ => parts

/-- The `isinstance(js, dict)` body of `extract_parts_from_any_payload`
(products.py lines 223-243): the three known array keys, then the
scalar-string-field fallback when nothing was found. -/
def structured_parts (fields : List (String × JVal)) : Finset String :=
  let parts : Finset String :=
    ["data", "aaData", "rows"].foldl
      (fun ps key =>
        match lget key fields with
        | some (.jarr rows) => rows.foldl (fun ps row => rowTokens row ps) ps
        | _ => ps)
      ∅
  if parts = ∅ then
    fields.foldl
      (fun ps kv =>
        match kv.2 with
        | .jstr s => if part_fullmatch (pyStrip s) then insert (pyStrip s) ps else ps
        | _ => ps)
      parts
  else parts

/-- The structured-parse result for an arbitrary `json.loads` outcome:
only a JSON object contributes (list payloads fall through with an empty
set, exactly as in the source where the `isinstance` guard fails). -/
def payload_struct : Option JVal → Finset String
  | some (.jobj fields) => structured_parts fields
  | _ => ∅

/-- `products.py extract_parts_from_any_payload`: structured parse of the
known wpDataTables shapes over the `json.loads` result (carried as the
`js` argument), and the raw-text regex scan when fewer than 3 identifiers
were found. -/
def extract_parts_from_any_payload (js : Option JVal) (payload_text : String) : Finset String :=
  let parts := payload_struct js
  if parts.card < 3 then parts ∪ (finditer_parts payload_text).toFinset else parts

/-- One captured `admin-ajax` response in `log_network`: `none` when
`resp.text()` raised, else the body text together with its `json.loads`
parse (`none` when the body is not JSON). -/
abbrev RespBody := Option (Option JVal × String)

/-- The part-collection loop of `log_network` (lines 330-350): walk the
captured responses newest first, accumulate parsed identifiers, and stop
once 50 have been found. -/
def collect_parts : List RespBody → Finset String → Finset String
  | [], acc => acc
  | b :: rest, acc =>
    match b with
    | none => collect_parts rest acc
    | some (js, txt) =>
      let acc := acc ∪ extract_parts_from_any_payload js txt
      if 50 ≤ acc.card then acc else collect_parts rest acc

/-- `products.py log_network`, reduced to its identifier-set result: with
zero captured responses return `[]` (after the fallback wait); parse the
responses newest first; with zero parsed identifiers return `[]`; else
return the identifiers sorted.  Every exit is a normal return. -/
def log_network_parts (responses : List RespBody) : List String :=
  if responses.isEmpty then []
  else
    let all_parts := collect_parts responses.reverse ∅
    if all_parts = ∅ then []
    else all_parts.sort (· ≤ ·)

/-- `write.py dedupe_results` key: `(part_no, Location)` when the stripped
location is non-empty, else `(part_no, None)`. -/
def rowKey (r : Dict) : String × Option String :=
  let part_no := pyStrip (pyStrVal (pyOr (lget "part_no" r) (Val.str "")))
  let loc := pyStrip (pyStrVal (pyOr (lget "Location" r) (Val.str "")))
  if loc ≠ "" then (part_no, some loc) else (part_no, none)

/-- `write.py dedupe_results`: last write wins per key; output is the dict
value view in key-insertion order. -/
def dedupe_results (rows : List Dict) : List Dict :=
  (rows.foldl (fun seen r => upsert (rowKey r) r seen) []).map Prod.snd

/-- The generic shape of the dict-building folds of this program
(`dedupe_results` and `{**a, **b}`): repeated keyed assignment. -/
def upsertFold {α β γ : Type} [DecidableEq α] (κ : γ → α) (ν : γ → β)
    (acc : List (α × β)) (l : List γ) : List (α × β) :=
  l.foldl (fun m x => upsert (κ x) (ν x) m) acc

/-! ### Concrete instances used by counterexamples and witnesses -/

/-- Two rows sharing the dedupe key `("A", "L1")`, the later one richer. -/
def rowW1 : Dict := [("part_no", Val.str "A"), ("Location", Val.str "L1")]

/-- See `rowW1`. -/
def rowW2 : Dict :=
  [("part_no", Val.str "A"), ("Location", Val.str "L1"), ("Unit Price", Val.str "$2.00")]

/-- The totals row of the spec example: unit price 12.50, 4 available. -/
def rowC4 : Dict := [("Unit Price", Val.str "12.50"), ("Qty Available", Val.int 4)]

/-- An overlay whose location table has two rows (two fulfillment locations). -/
def mcTwoLoc : ModalContent :=
  { specRowsScoped := [["Part No.", "P-7777"], ["Description", "A thing"]]
    specRowsAll := []
    locRows := [["LocA", "b", "$12.50", "o", "3"], ["LocB", "b", "$13.00", "o", "4"]]
    imageSrc := none }

/-- The submitted work item for the overlay counterexample. -/
def itemC1 : Item := ⟨"cu", "sn", "su", "P-7777"⟩

/-- An inline-mode raw extraction (no `mode` tag), for the C1 witness. -/
def pdC1w : Dict := [("Unit Price", Val.str "$4.00"), ("Qty Available", Val.int 2)]

/-- A work item whose submitted identifier differs from the asserted one. -/
def itemC6 : Item := ⟨"cu", "sn", "su", "SUBMITTED-1"⟩

/-- The reference the normalizer should emit: the detail-asserted
`part_no` when present (under the C6 hypotheses `Part No` is absent and
an asserted value is a non-empty string), else the submitted identifier. -/
def asserted_part_no (pd : Dict) (submitted : String) : String :=
  match lget "part_no" pd with
  | some (Val.str s) => s
  | _ => submitted

/-- A detail extraction asserting its own identifier. -/
def pdC6 : Dict := [("part_no", Val.str "ASSERTED-1"), ("Unit Price", Val.str "$3.00")]

/-- A world in which the post-submit convergence wait after Detail View
times out: the flow raises with no cleanup. -/
def wFailC7 : DetailWorld :=
  { modalEarly := false, modalOnParse := true
    modal := ⟨[], [], [], none⟩
    detailBtnVisible := true, signalAfterDetail := false, modalAfterDetail := false
    qtyInputVisible := false, updateClickable := false, modalAfterUpdate := false
    preMore := [], onPartDetails := false, detailsNorm := [], meta := [], returnOk := true }

/-- A world in which the early overlay branch succeeds (and there is no
item to delete, which is not an error). -/
def wOkC7 : DetailWorld :=
  { modalEarly := true, modalOnParse := true
    modal := ⟨[["Part No.", "P-1"]], [], [["L", "b", "$1.00", "o", "2"]], none⟩
    detailBtnVisible := false, signalAfterDetail := false, modalAfterDetail := false
    qtyInputVisible := false, updateClickable := false, modalAfterUpdate := false
    preMore := [], onPartDetails := false, detailsNorm := [], meta := [], returnOk := true }

/-- Same failing world, used as the extraction oracle of the Stage-4
counterexample: every attempt ends in the convergence-wait error. -/
def wFailC2 : DetailWorld :=
  { modalEarly := false, modalOnParse := true
    modal := ⟨[], [], [], none⟩
    detailBtnVisible := true, signalAfterDetail := false, modalAfterDetail := false
    qtyInputVisible := false, updateClickable := false, modalAfterUpdate := false
    preMore := [], onPartDetails := false, detailsNorm := [], meta := [], returnOk := true }

/-- Stage-4 extraction oracle that always hits the recoverable
per-identifier error of `wFailC2`. -/
def stepFailC2 : String → Item → Except String Dict :=
  fun _ _ => (open_detail_update_qty_and_collect wFailC2).1

/-- First identifier of the Stage-4 counterexample queue. -/
def itemA : Item := ⟨"cu", "sn", "su", "PART-A"⟩

/-- Second identifier of the Stage-4 counterexample queue. -/
def itemB : Item := ⟨"cu", "sn", "su", "PART-B"⟩

/-- A checkpoint log already holding a record for `PART-A`. -/
def logC3 : List Dict := [[("part_no", Val.str "PART-A"), ("Unit Price", Val.str "$5.00")]]

/-- An extraction oracle for the resume witness (never reached). -/
def stepC3 : String → Item → Except String Dict := fun _ _ => .ok []

/-- The JSON object of the spec's structured-parse example:
`{"data": [["x", "AB-1234", 3]]}`. -/
def rowC9 : JVal := JVal.jarr [JVal.jstr "x", JVal.jstr "AB-1234", JVal.jnum 3]

/-- See `rowC9`. -/
def fieldsC9 : List (String × JVal) := [("data", JVal.jarr [rowC9])]

/-- The raw body text of the structured-parse example. -/
def textC9 : String := "\x7b\"data\": [[\"x\", \"AB-1234\", 3]]\x7d"

/-! ### Lemmas about the dict model -/

theorem lget_upsert {α β : Type} [DecidableEq α] (k k' : α) (v : β) (m : List (α × β)) :
    lget k' (upsert k v m) = if k' = k then some v else lget k' m := by
  induction m with
  | nil => simp [upsert, lget]
  | cons p rest ih =>
    obtain ⟨a, b⟩ := p
    simp only [upsert]
    by_cases hak : a = k
    · subst hak
      rw [if_pos rfl]
      simp only [lget]
      by_cases h' : k' = a
      · rw [if_pos h', if_pos h']
      · rw [if_neg h', if_neg h', if_neg h']
    · rw [if_neg hak]
      simp only [lget]
      by_cases h' : k' = a
      · subst h'
        rw [if_pos rfl, if_neg hak, if_pos rfl]
      · rw [if_neg h', ih]
        by_cases h'' : k' = k
        · rw [if_pos h'', if_pos h'']
        · rw [if_neg h'', if_neg h'', if_neg h']

theorem mem_upsert {α β : Type} [DecidableEq α] (p : α × β) (k : α) (v : β)
    (m : List (α × β)) (h : p ∈ upsert k v m) : p = (k, v) ∨ p ∈ m := by
  induction m with
  | nil => simpa [upsert] using h
  | cons q rest ih =>
    obtain ⟨a, b⟩ := q
    simp only [upsert] at h
    by_cases hak : a = k
    · rw [if_pos hak] at h
      rcases List.mem_cons.mp h with h1 | h1
      · exact Or.inl h1
      · exact Or.inr (List.mem_cons_of_mem _ h1)
    · rw [if_neg hak] at h
      rcases List.mem_cons.mp h with h1 | h1
      · exact Or.inr (h1 ▸ List.mem_cons_self _ _)
      · rcases ih h1 with h2 | h2
        · exact Or.inl h2
        · exact Or.inr (List.mem_cons_of_mem _ h2)

theorem keys_upsert {α β : Type} [DecidableEq α] (k : α) (v : β) (m : List (α × β)) :
    (upsert k v m).map Prod.fst =
      if k ∈ m.map Prod.fst then m.map Prod.fst else m.map Prod.fst ++ [k] := by
  induction m with
  | nil => simp [upsert]
  | cons q rest ih =>
    obtain ⟨a, b⟩ := q
    simp only [upsert]
    by_cases hak : a = k
    · subst hak; simp
    · rw [if_neg hak]
      simp only [List.map_cons, List.mem_cons, ih]
      by_cases hk : k ∈ rest.map Prod.fst
      · simp [hk, Ne.symm hak]
      · simp [hk, Ne.symm hak]

theorem upsert_of_not_mem_keys {α β : Type} [DecidableEq α] (k : α) (v : β)
    (m : List (α × β)) (h : k ∉ m.map Prod.fst) : upsert k v m = m ++ [(k, v)] := by
  induction m with
  | nil => simp [upsert]
  | cons q rest ih =>
    obtain ⟨a, b⟩ := q
    simp only [List.map_cons, List.mem_cons] at h
    push_neg at h
    simp only [upsert, if_neg (Ne.symm h.1)]
    rw [ih h.2]
    simp

theorem nodup_keys_upsert {α β : Type} [DecidableEq α] (k : α) (v : β) (m : List (α × β))
    (h : (m.map Prod.fst).Nodup) : ((upsert k v m).map Prod.fst).Nodup := by
  rw [keys_upsert]
  by_cases hk : k ∈ m.map Prod.fst
  · simpa [hk]
  · simpa [hk, List.nodup_append] using h

theorem upsertFold_cons {α β γ : Type} [DecidableEq α] (κ : γ → α) (ν : γ → β)
    (acc : List (α × β)) (x : γ) (l : List γ) :
    upsertFold κ ν acc (x :: l) = upsertFold κ ν (upsert (κ x) (ν x) acc) l := rfl

theorem getLast?_cons_is_some {α : Type} (y : α) (ys : List α) :
    ∃ z, (y :: ys).getLast? = some z := by
  induction ys generalizing y with
  | nil => exact ⟨y, rfl⟩
  | cons b bs ih =>
    obtain ⟨z, hz⟩ := ih b
    exact ⟨z, by rw [List.getLast?_cons_cons]; exact hz⟩

theorem lget_upsertFold {α β γ : Type} [DecidableEq α] (κ : γ → α) (ν : γ → β)
    (l : List γ) (acc : List (α × β)) (k : α) :
    lget k (upsertFold κ ν acc l) =
      match (l.filter (fun x => decide (κ x = k))).getLast? with
      | some x => some (ν x)
      | none => lget k acc := by
  induction l generalizing acc with
  | nil => simp [upsertFold]
  | cons x t ih =>
    rw [upsertFold_cons, ih]
    by_cases hx : κ x = k
    · rw [List.filter_cons_of_pos (by simpa using hx)]
      rcases ht : t.filter (fun x => decide (κ x = k)) with _ | ⟨y, ys⟩
      · simp only [List.getLast?_singleton, List.getLast?_nil]
        rw [lget_upsert, if_pos hx.symm]
      · rw [List.getLast?_cons_cons]
        obtain ⟨z, hz⟩ := getLast?_cons_is_some y ys
        rw [hz]
    · rw [List.filter_cons_of_neg (by simpa using hx)]
      rcases ht : t.filter (fun x => decide (κ x = k)) with _ | ⟨y, ys⟩
      · simp only [List.getLast?_nil]
        rw [lget_upsert, if_neg (fun h => hx h.symm)]
      · obtain ⟨z, hz⟩ := getLast?_cons_is_some y ys
        rw [hz]

theorem mem_upsertFold {α β γ : Type} [DecidableEq α] (κ : γ → α) (ν : γ → β)
    (l : List γ) (acc : List (α × β)) (p : α × β) (h : p ∈ upsertFold κ ν acc l) :
    p ∈ acc ∨ ∃ x ∈ l, p = (κ x, ν x) := by
  induction l generalizing acc with
  | nil => exact Or.inl (by simpa [upsertFold] using h)
  | cons x t ih =>
    rw [upsertFold_cons] at h
    rcases ih _ h with h1 | h1
    · rcases mem_upsert _ _ _ _ h1 with h2 | h2
      · exact Or.inr ⟨x, List.mem_cons_self _ _, h2⟩
      · exact Or.inl h2
    · obtain ⟨y, hy, hp⟩ := h1
      exact Or.inr ⟨y, List.mem_cons_of_mem _ hy, hp⟩

theorem nodup_keys_upsertFold {α β γ : Type} [DecidableEq α] (κ : γ → α) (ν : γ → β)
    (l : List γ) (acc : List (α × β)) (h : (acc.map Prod.fst).Nodup) :
    ((upsertFold κ ν acc l).map Prod.fst).Nodup := by
  induction l generalizing acc with
  | nil => simpa [upsertFold]
  | cons x t ih => exact ih _ (nodup_keys_upsert _ _ _ h)

theorem upsertFold_of_nodup {α β γ : Type} [DecidableEq α] (κ : γ → α) (ν : γ → β)
    (l : List γ) (acc : List (α × β))
    (h : (acc.map Prod.fst ++ l.map κ).Nodup) :
    upsertFold κ ν acc l = acc ++ l.map (fun x => (κ x, ν x)) := by
  induction l generalizing acc with
  | nil => simp [upsertFold]
  | cons x t ih =>
    rw [upsertFold_cons]
    have hx : κ x ∉ acc.map Prod.fst := by
      intro hmem
      rcases List.nodup_append.mp h with ⟨_, _, hdisj⟩
      exact hdisj hmem (by simp)
    have h' : ((acc ++ [(κ x, ν x)]).map Prod.fst ++ t.map κ).Nodup := by
      simpa [List.append_assoc] using h
    rw [upsert_of_not_mem_keys _ _ _ hx, ih _ h']
    simp

theorem filter_values_eq_lget {α β : Type} [DecidableEq α] (κ : β → α)
    (m : List (α × β)) (k : α)
    (hwf : ∀ p ∈ m, p.1 = κ p.2) (hnd : (m.map Prod.fst).Nodup) :
    (m.map Prod.snd).filter (fun v => decide (κ v = k)) =
      match lget k m with
      | some v => [v]
      | none => [] := by
  induction m with
  | nil => simp [lget]
  | cons p rest ih =>
    obtain ⟨a, b⟩ := p
    have ha : a = κ b := hwf (a, b) (List.mem_cons_self _ _)
    have hnd2 : a ∉ rest.map Prod.fst ∧ (rest.map Prod.fst).Nodup :=
      List.nodup_cons.mp (by simpa using hnd)
    have hrest : ∀ q ∈ rest, q.1 = κ q.2 := fun q hq => hwf q (List.mem_cons_of_mem _ hq)
    by_cases hk : κ b = k
    · rw [List.map_cons, List.filter_cons_of_pos (by simpa using hk)]
      have hnone : (rest.map Prod.snd).filter (fun v => decide (κ v = k)) = [] := by
        rw [List.filter_eq_nil_iff]
        intro v hv
        simp only [List.mem_map] at hv
        obtain ⟨q, hq, hqv⟩ := hv
        simp only [decide_eq_true_eq]
        intro hcon
        apply hnd2.1
        rw [List.mem_map]
        refine ⟨q, hq, ?_⟩
        rw [hrest q hq, hqv, hcon, ha, hk]
      have hka : k = a := by rw [ha, hk]
      rw [hnone]
      simp only [lget, if_pos hka]
    · rw [List.map_cons, List.filter_cons_of_neg (by simpa using hk)]
      have hne : ¬ k = a := by rw [ha]; exact fun hcon => hk hcon.symm
      simp only [lget, if_neg hne]
      exact ih hrest hnd2.2

theorem filter_key_getLast?_of_nodup {α β : Type} [DecidableEq α]
    (m : List (α × β)) (k : α) (hnd : (m.map Prod.fst).Nodup) :
    (m.filter (fun p => decide (p.1 = k))).getLast? =
      match lget k m with
      | some v => some (k, v)
      | none => none := by
  induction m with
  | nil => simp [lget]
  | cons p rest ih =>
    obtain ⟨a, b⟩ := p
    have hnd2 : a ∉ rest.map Prod.fst ∧ (rest.map Prod.fst).Nodup :=
      List.nodup_cons.mp (by simpa using hnd)
    by_cases hk : a = k
    · subst hk
      rw [List.filter_cons_of_pos (by simp)]
      have hnone : rest.filter (fun p => decide (p.1 = a)) = [] := by
        rw [List.filter_eq_nil_iff]
        intro q hq
        simp only [decide_eq_true_eq]
        intro hcon
        apply hnd2.1
        rw [List.mem_map]
        exact ⟨q, hq, hcon⟩
      rw [hnone]
      simp [lget]
    · rw [List.filter_cons_of_neg (by simpa using hk)]
      have hne : ¬ k = a := fun hcon => hk hcon.symm
      simp only [lget, if_neg hne]
      exact ih hnd2.2

/-- Bridge: `dedupe_results` is the generic fold. -/
theorem dedupe_results_eq (rows : List Dict) :
    dedupe_results rows = (upsertFold rowKey (fun r => r) [] rows).map Prod.snd := rfl

/-- Bridge: `{**a, **b}` is the generic fold. -/
theorem dmerge_eq (a b : Dict) : dmerge a b = upsertFold Prod.fst Prod.snd a b := rfl

theorem dedupe_wf (rows : List Dict) :
    ∀ p ∈ upsertFold rowKey (fun r => r) [] rows, p.1 = rowKey p.2 := by
  intro p hp
  rcases mem_upsertFold _ _ _ _ _ hp with h | ⟨x, _, hx⟩
  · simp at h
  · rw [hx]

theorem dedupe_nodup_keys (rows : List Dict) :
    ((upsertFold rowKey (fun r => r) [] rows).map Prod.fst).Nodup :=
  nodup_keys_upsertFold _ _ _ _ (by simp)

theorem dedupe_map_rowKey (rows : List Dict) :
    (upsertFold rowKey (fun r => r) [] rows).map Prod.fst =
      (dedupe_results rows).map rowKey := by
  have h1 : (upsertFold rowKey (fun r => r) [] rows).map Prod.fst =
      (upsertFold rowKey (fun r => r) [] rows).map (fun p => rowKey p.2) :=
    List.map_congr_left (fun p hp => dedupe_wf rows p hp)
  rw [h1, dedupe_results_eq, List.map_map]
  rfl

/-- C5: for every input list and every dedupe key, the output's rows with
that key are exactly the last input row carrying it (last write wins,
keyed by `(reference, location-or-null)`). -/
theorem claim_C5_theorem (rows : List Dict) (k : String × Option String) :
    (dedupe_results rows).filter (fun r => decide (rowKey r = k)) =
      match (rows.filter (fun r => decide (rowKey r = k))).getLast? with
      | some r => [r]
      | none => [] := by
  rw [dedupe_results_eq]
  rw [filter_values_eq_lget rowKey _ k (dedupe_wf rows) (dedupe_nodup_keys rows)]
  rw [lget_upsertFold]
  rcases h : (rows.filter (fun r => decide (rowKey r = k))).getLast? with _ | r
  · rfl
  · rfl

/-- C10: `dedupe_results` is idempotent, returns only input rows, and its
output has pairwise-distinct `(part_no, Location)` keys. -/
theorem claim_C10_theorem (rows : List Dict) :
    dedupe_results (dedupe_results rows) = dedupe_results rows ∧
    (∀ r ∈ dedupe_results rows, r ∈ rows) ∧
    List.Pairwise (fun a b => rowKey a ≠ rowKey b) (dedupe_results rows) := by
  have hkeysnodup : ((dedupe_results rows).map rowKey).Nodup := by
    rw [← dedupe_map_rowKey]
    exact dedupe_nodup_keys rows
  refine ⟨?_, ?_, ?_⟩
  · rw [dedupe_results_eq (dedupe_results rows)]
    rw [upsertFold_of_nodup rowKey (fun r => r) (dedupe_results rows) [] (by simpa using hkeysnodup)]
    simp only [List.nil_append, List.map_map]
    show List.map (fun x => x) (dedupe_results rows) = dedupe_results rows
    simp
  · intro r hr
    rw [dedupe_results_eq] at hr
    rw [List.mem_map] at hr
    obtain ⟨p, hp, hpr⟩ := hr
    rcases mem_upsertFold _ _ _ _ _ hp with h | ⟨x, hx, hpx⟩
    · simp at h
    · rw [← hpr, hpx]
      exact hx
  · exact List.pairwise_map.mp hkeysnodup

/-- Witness for C10: a returned row is an element of the input. -/
theorem claim_C10_witness : rowW2 ∈ [rowW1, rowW2] :=
  (claim_C10_theorem [rowW1, rowW2]).2.1 rowW2
    (show rowW2 ∈ dedupe_results [rowW1, rowW2] from List.Mem.head _)

/-- C4: whenever the unit price of a (requested-quantity-defaulted) row
parses and the quantities convert, the emitted totals are
`round(unit_price × qty, 2)`; when the unit price does not parse, no total
is written at all. -/
theorem claim_C4_theorem :
    (∀ (row : Dict) (u : ℚ) (n m : ℤ),
      money_to_float ((lget "Unit Price" (defaultRequestedQty row)).getD (Val.str "")) = some u →
      pyIntOpt (lget "Requested Qty" (defaultRequestedQty row)) = some n →
      pyIntOpt (lget "Qty Available" (defaultRequestedQty row)) = some m →
      lget "Total Price (Requested)" (calc_totals row) = some (Val.rat (roundQ2 (u * (n : ℚ)))) ∧
      lget "Total Price (Available)" (calc_totals row) = some (Val.rat (roundQ2 (u * (m : ℚ))))) ∧
    (∀ row : Dict,
      money_to_float ((lget "Unit Price" (defaultRequestedQty row)).getD (Val.str "")) = none →
      calc_totals row = defaultRequestedQty row) := by
  constructor
  · intro row u n m h1 h2 h3
    simp only [calc_totals]
    rw [h1, h2, h3]
    constructor
    · rw [lget_upsert, if_neg (by decide), lget_upsert, if_pos rfl]
    · rw [lget_upsert, if_pos rfl]
  · intro row h
    simp only [calc_totals]
    rw [h]

/-- Witness for C4: the spec's example values.  `12.50 × 4 = 50.00` and
`12.50 × 9999 = 124987.50`. -/
theorem claim_C4_witness :
    lget "Total Price (Requested)" (calc_totals rowC4) = some (Val.rat (249975 / 2)) ∧
    lget "Total Price (Available)" (calc_totals rowC4) = some (Val.rat 50) := by
  have h1 : money_to_float ((lget "Unit Price" (defaultRequestedQty rowC4)).getD (Val.str ""))
      = some (25 / 2 : ℚ) := by
    rw [show (25 / 2 : ℚ) = ((12 : ℕ) : ℚ) + ((50 : ℕ) : ℚ) / (10 : ℚ) ^ (2 : ℕ) by
      push_cast
      norm_num]
    rfl
  have h2 : pyIntOpt (lget "Requested Qty" (defaultRequestedQty rowC4)) = some 9999 := rfl
  have h3 : pyIntOpt (lget "Qty Available" (defaultRequestedQty rowC4)) = some 4 := rfl
  obtain ⟨ha, hb⟩ := claim_C4_theorem.1 rowC4 (25 / 2) 9999 4 h1 h2 h3
  constructor
  · rw [ha, show roundQ2 ((25 / 2 : ℚ) * (((9999 : ℤ) : ℚ))) = 249975 / 2 by
      push_cast
      norm_num [roundQ2, round_eq]]
  · rw [hb, show roundQ2 ((25 / 2 : ℚ) * (((4 : ℤ) : ℚ))) = 50 by
      push_cast
      norm_num [roundQ2, round_eq]]

theorem lget_append {α β : Type} [DecidableEq α] (k : α) (a b : List (α × β)) :
    lget k (a ++ b) = match lget k a with
      | some v => some v
      | none => lget k b := by
  induction a with
  | nil => simp [lget]
  | cons p rest ih =>
    obtain ⟨a1, b1⟩ := p
    show lget k ((a1, b1) :: (rest ++ b)) = _
    simp only [lget]
    by_cases h : k = a1
    · rw [if_pos h, if_pos h]
    · rw [if_neg h, if_neg h, ih]

theorem lget_entryIfStr (k k' s) :
    lget k (entryIfStr k' s) =
      if k = k' ∧ s ≠ "" then some (Val.str (pyStrip s)) else none := by
  unfold entryIfStr
  by_cases hs : s = ""
  · simp [hs, lget]
  · by_cases hk : k = k'
    · simp [hs, hk, lget]
    · simp [hs, hk, lget]

theorem lget_normalize_specs_none (raw : List (String × String)) (k : String)
    (h1 : k ≠ "part_no") (h2 : k ≠ "Title") (h3 : k ≠ "Lbs") (h4 : k ≠ "Width")
    (h5 : k ≠ "Height") (h6 : k ≠ "Depth") (h7 : k ≠ "Requested Qty") :
    lget k (normalize_specs raw) = none := by
  simp only [normalize_specs, lget_append, lget_entryIfStr, h1, h2, h3, h4, h5, h6,
    false_and, if_false]
  split
  · simp [lget, h7]
  · simp [lget]

theorem lget_normalize_specs_part_no (raw : List (String × String)) :
    lget "part_no" (normalize_specs raw) = none ∨
      ∃ s, lget "part_no" (normalize_specs raw) = some (Val.str s) := by
  have e1 : ¬(("part_no" : String) = "Title") := by decide
  have e2 : ¬(("part_no" : String) = "Lbs") := by decide
  have e3 : ¬(("part_no" : String) = "Width") := by decide
  have e4 : ¬(("part_no" : String) = "Height") := by decide
  have e5 : ¬(("part_no" : String) = "Depth") := by decide
  simp only [normalize_specs, lget_append, lget_entryIfStr, e1, e2, e3, e4, e5,
    false_and, if_false]
  by_cases hpn :
      firstNonempty [lget "Part No." raw, lget "Part No" raw, lget "Part Number" raw] = ""
  · left
    simp only [hpn, ne_eq, not_true_eq_false, and_false, if_false]
    split
    · simp [lget]
    · simp [lget]
  · right
    rw [if_pos (And.intro trivial hpn)]
    exact ⟨_, rfl⟩

theorem lget_parse_modal_data_none (mc : ModalContent) (k : String)
    (h1 : k ≠ "part_no") (h2 : k ≠ "Title") (h3 : k ≠ "Lbs") (h4 : k ≠ "Width")
    (h5 : k ≠ "Height") (h6 : k ≠ "Depth") (h7 : k ≠ "Requested Qty")
    (h8 : k ≠ "Image URL") (h9 : k ≠ "Unit Price") (h10 : k ≠ "Qty Available") :
    lget k (parse_modal_data mc) = none := by
  simp only [parse_modal_data]
  split <;>
    split <;>
      split <;>
        simp_all [lget_upsert, lget_normalize_specs_none _ k h1 h2 h3 h4 h5 h6 h7]

theorem lget_parse_modal_data_part_no (mc : ModalContent) :
    lget "part_no" (parse_modal_data mc) = none ∨
      ∃ s, lget "part_no" (parse_modal_data mc) = some (Val.str s) := by
  have hbase := lget_normalize_specs_part_no
    (if (parse_th_th_rows mc.specRowsScoped).isEmpty then parse_th_th_rows mc.specRowsAll
     else parse_th_th_rows mc.specRowsScoped)
  simp only [parse_modal_data]
  split <;>
    split <;>
      split <;>
        simp_all [lget_upsert]

theorem strip_or_chain_ok_of_str (a b : Option Val) (ha : a = none)
    (hb : b = none ∨ ∃ s, b = some (Val.str s)) :
    ∃ p, strip_or_chain a b = .ok p := by
  subst ha
  rcases hb with hb | ⟨s, hb⟩ <;> subst hb
  · exact ⟨"", rfl⟩
  · by_cases hs : s.isEmpty
    · refine ⟨"", ?_⟩
      simp [strip_or_chain, truthyOpt, pyTruthy, hs]
    · refine ⟨pyStrip s, ?_⟩
      simp [strip_or_chain, truthyOpt, pyTruthy, hs]

/-- C1 (amended): an overlay-mode extraction always normalizes to exactly
ONE row — the modal parser flattens the overlay (no `mode` tag, no `rows`
list, only the first location row is read) — and any extraction carrying
no `modal` mode tag (in particular the inline flow) also yields exactly
one row. -/
theorem claim_C1_theorem :
    (∀ (item : Item) (mc : ModalContent),
        (normalize_price_rows item (parse_modal_data mc)).map List.length = Except.ok 1) ∧
    (∀ (item : Item) (pd : Dict) (rs : List Dict),
        isModeModal (lget "mode" pd) = false →
        normalize_price_rows item pd = .ok rs → rs.length = 1) := by
  have hmain : ∀ (item : Item) (pd : Dict) (rs : List Dict),
      isModeModal (lget "mode" pd) = false →
      normalize_price_rows item pd = .ok rs → rs.length = 1 := by
    intro item pd rs hmode hok
    simp only [normalize_price_rows] at hok
    rcases hsc : strip_or_chain (lget "Part No" pd) (lget "part_no" pd) with e | pfd <;>
      rw [hsc] at hok
    · exact absurd hok (by simp)
    · rw [hmode] at hok
      simp only [Bool.false_eq_true, if_false, Except.ok.injEq] at hok
      rw [← hok]
      rfl
  refine ⟨?_, hmain⟩
  intro item mc
  have hPN : lget "Part No" (parse_modal_data mc) = none :=
    lget_parse_modal_data_none mc "Part No" (by decide) (by decide) (by decide) (by decide)
      (by decide) (by decide) (by decide) (by decide) (by decide) (by decide)
  have hmode : isModeModal (lget "mode" (parse_modal_data mc)) = false := by
    rw [lget_parse_modal_data_none mc "mode" (by decide) (by decide) (by decide) (by decide)
      (by decide) (by decide) (by decide) (by decide) (by decide) (by decide)]
    rfl
  obtain ⟨p, hp⟩ :=
    strip_or_chain_ok_of_str _ _ hPN (lget_parse_modal_data_part_no mc)
  simp only [normalize_price_rows, hp, hmode, Bool.false_eq_true, if_false]
  rfl

/-- Counterexample for C1: an overlay whose location table has two rows
normalizes to ONE row, not two. -/
theorem claim_C1_counterexample :
    mcTwoLoc.locRows.length = 2 ∧
    (normalize_price_rows itemC1 (parse_modal_data mcTwoLoc)).map List.length = Except.ok 1 ∧
    ¬ (normalize_price_rows itemC1 (parse_modal_data mcTwoLoc)).map List.length =
        Except.ok mcTwoLoc.locRows.length := by
  refine ⟨rfl, rfl, ?_⟩
  intro h
  rw [show (normalize_price_rows itemC1 (parse_modal_data mcTwoLoc)).map List.length =
      Except.ok 1 from rfl] at h
  exact absurd (Except.ok.inj h) (by decide)

/-- Witness for C1 (amended): an inline (mode-less) extraction normalizes
to exactly one row. -/
theorem claim_C1_witness :
    isModeModal (lget "mode" pdC1w) = false ∧
    ∃ rs, normalize_price_rows itemC1 pdC1w = Except.ok rs ∧ rs.length = 1 := by
  refine ⟨rfl, ?_⟩
  obtain ⟨rs, hrs⟩ : ∃ rs, normalize_price_rows itemC1 pdC1w = Except.ok rs := ⟨_, rfl⟩
  exact ⟨rs, hrs, claim_C1_theorem.2 itemC1 pdC1w rs rfl hrs⟩

theorem lget_calc_totals_other (row : Dict) (k : String)
    (h1 : k ≠ "Requested Qty") (h2 : k ≠ "Total Price (Requested)")
    (h3 : k ≠ "Total Price (Available)") :
    lget k (calc_totals row) = lget k row := by
  have hd : lget k (defaultRequestedQty row) = lget k row := by
    unfold defaultRequestedQty
    split
    · rfl
    · rw [lget_upsert, if_neg h1]
  simp only [calc_totals]
  split <;> split <;> simp_all [lget_upsert]

theorem lget_filter_of_pred (pb : String × Val → Bool) (m : Dict) (k : String)
    (hp : ∀ v, pb (k, v) = true) :
    lget k (m.filter pb) = lget k m := by
  induction m with
  | nil => rfl
  | cons p rest ih =>
    obtain ⟨a, c⟩ := p
    by_cases hk : k = a
    · subst hk
      rw [List.filter_cons_of_pos (hp c)]
      simp [lget]
    · cases hpb : pb (a, c)
      · rw [List.filter_cons_of_neg (by simp [hpb])]
        rw [ih]
        simp [lget, hk]
      · rw [List.filter_cons_of_pos hpb]
        simp only [lget, if_neg hk]
        exact ih

theorem nodup_keys_filter (pb : String × Val → Bool) (m : Dict)
    (h : (m.map Prod.fst).Nodup) : ((m.filter pb).map Prod.fst).Nodup :=
  List.Nodup.sublist (List.Sublist.map Prod.fst (List.filter_sublist m)) h

theorem lget_dmerge_of_nodup (a b : Dict) (k : String)
    (hnd : (b.map Prod.fst).Nodup) :
    lget k (dmerge a b) = match lget k b with
      | some v => some v
      | none => lget k a := by
  rw [dmerge_eq, lget_upsertFold, filter_key_getLast?_of_nodup b k hnd]
  rcases lget k b with _ | v
  · rfl
  · rfl

/-- C6: under the shapes the detail flow actually produces (no `Part No`
key, no `rows` key, dict keys unique, and any asserted `part_no` a
non-empty stripped string), every emitted row's reference is the asserted
identifier when one is present, else the submitted one. -/
theorem claim_C6_theorem (item : Item) (pd : Dict)
    (hnd : (pd.map Prod.fst).Nodup)
    (hPN : lget "Part No" pd = none)
    (hrows : lget "rows" pd = none)
    (hpn : lget "part_no" pd = none ∨
      ∃ s, lget "part_no" pd = some (Val.str s) ∧ pyStrip s = s ∧ s ≠ "") :
    ∃ rs, normalize_price_rows item pd = .ok rs ∧
      ∀ r ∈ rs, lget "part_no" r = some (Val.str (asserted_part_no pd item.part_no)) := by
  have hbase : ∀ P : String,
      lget "part_no" (upsert "Requested Qty" (Val.int 9999) (upsert "part_no" (Val.str P)
        [("category_url", Val.str item.category_url),
         ("subcategory_url", Val.str item.subcategory_url),
         ("Category", Val.str item.subcategory_name),
         ("Categories", Val.str item.subcategory_name)])) = some (Val.str P) := by
    intro P
    rw [lget_upsert, if_neg (by decide), lget_upsert, if_pos rfl]
  have hclean1 : ∀ v, (fun kv : String × Val => kv.1 != "rows" && kv.1 != "mode") ("part_no", v)
      = true := fun _ => rfl
  have hclean2 : ∀ v, (fun kv : String × Val => kv.1 != "Part No") ("part_no", v)
      = true := fun _ => rfl
  have hndc : (((pd.filter (fun kv => kv.1 != "rows" && kv.1 != "mode")).filter
      (fun kv => kv.1 != "Part No")).map Prod.fst).Nodup :=
    nodup_keys_filter _ _ (nodup_keys_filter _ _ hnd)
  have hcleanget : lget "part_no" ((pd.filter (fun kv => kv.1 != "rows" && kv.1 != "mode")).filter
      (fun kv => kv.1 != "Part No")) = lget "part_no" pd := by
    rw [lget_filter_of_pred _ _ _ hclean2, lget_filter_of_pred _ _ _ hclean1]
  have hct : ∀ X : Dict, lget "part_no" (calc_totals X) = lget "part_no" X := fun X =>
    lget_calc_totals_other X "part_no" (by decide) (by decide) (by decide)
  rcases hpn with hnone | ⟨s, hs, hstrip, hsne⟩
  · have hsc : strip_or_chain (lget "Part No" pd) (lget "part_no" pd) = .ok "" := by
      rw [hPN, hnone]
      rfl
    have hassert : asserted_part_no pd item.part_no = item.part_no := by
      unfold asserted_part_no
      rw [hnone]
    simp only [normalize_price_rows, hsc, hassert]
    cases hmode : isModeModal (lget "mode" pd)
    · refine ⟨_, rfl, ?_⟩
      intro r hr
      rw [List.mem_singleton] at hr
      subst hr
      rw [hct, lget_dmerge_of_nodup _ _ _ hndc, hcleanget, hnone]
      simp only [ne_eq, not_true_eq_false, if_neg (by simp : ¬("" : String) ≠ "")]
      exact hbase item.part_no
    · rw [hrows, show rowsOf none = [] from rfl]
      simp only [List.map_nil, List.isEmpty_nil, if_true]
      refine ⟨_, rfl, ?_⟩
      intro r hr
      rw [List.mem_singleton] at hr
      subst hr
      rw [hct]
      simp only [ne_eq, not_true_eq_false, if_neg (by simp : ¬("" : String) ≠ "")]
      exact hbase item.part_no
  · have hsc : strip_or_chain (lget "Part No" pd) (lget "part_no" pd) = .ok s := by
      rw [hPN, hs]
      have hie : s.isEmpty = false := by
        cases hie : s.isEmpty
        · rfl
        · exact absurd ((String.isEmpty_iff s).mp hie) hsne
      simp [strip_or_chain, truthyOpt, pyTruthy, hie, hstrip]
    have hassert : asserted_part_no pd item.part_no = s := by
      unfold asserted_part_no
      rw [hs]
    simp only [normalize_price_rows, hsc, hassert]
    cases hmode : isModeModal (lget "mode" pd)
    · refine ⟨_, rfl, ?_⟩
      intro r hr
      rw [List.mem_singleton] at hr
      subst hr
      rw [hct, lget_dmerge_of_nodup _ _ _ hndc, hcleanget, hs]
    · rw [hrows, show rowsOf none = [] from rfl]
      simp only [List.map_nil, List.isEmpty_nil, if_true]
      refine ⟨_, rfl, ?_⟩
      intro r hr
      rw [List.mem_singleton] at hr
      subst hr
      rw [hct]
      rw [if_pos hsne]
      exact hbase s

/-- Witness for C6: a detail extraction asserting `ASSERTED-1` overrides
the submitted `SUBMITTED-1`. -/
theorem claim_C6_witness :
    ∃ rs, normalize_price_rows itemC6 pdC6 = .ok rs ∧
      ∀ r ∈ rs, lget "part_no" r = some (Val.str "ASSERTED-1") :=
  claim_C6_theorem itemC6 pdC6 (by decide) rfl rfl
    (Or.inr ⟨"ASSERTED-1", rfl, rfl, by decide⟩)

/-- C7 (amended): every SUCCESSFUL terminal path of the detail flow has
attempted the cleanup actions — overlay dismissal
(`close_modal_if_present` / `_close_modal`), item removal
(`delete_current_item`) and return to the quote page
(`return_to_quote_page`); the cleanup helpers themselves are fault
tolerant, so a nothing-to-clean outcome does not affect the result.
(Failure paths raise with no cleanup: see the counterexample.) -/
theorem claim_C7_theorem (w : DetailWorld)
    (h : (open_detail_update_qty_and_collect w).1.isOk = true) :
    Action.returnToQuote ∈ (open_detail_update_qty_and_collect w).2 ∧
    Action.deleteItem ∈ (open_detail_update_qty_and_collect w).2 ∧
    Action.closeModal ∈ (open_detail_update_qty_and_collect w).2 ∧
    Action.closeFancybox ∈ (open_detail_update_qty_and_collect w).2 := by
  obtain ⟨me, mp, mc, dbv, sad, mad, qiv, uc, mau, pm, opd, dn, mt, rok⟩ := w
  simp only [open_detail_update_qty_and_collect, parse_modal_close_delete] at h ⊢
  cases me
  · cases dbv <;> cases sad <;> cases mad <;> cases mp <;> cases qiv <;> cases uc <;>
      cases mau <;> cases rok <;> simp_all [Except.isOk, Except.toBool]
  · cases mp <;> cases rok <;> simp_all [Except.isOk, Except.toBool]

/-- Counterexample for C7: when the convergence wait after Detail View
times out, the flow raises having attempted neither item removal nor the
return to the quote page. -/
theorem claim_C7_counterexample :
    (open_detail_update_qty_and_collect wFailC7).1.isOk = false ∧
    Action.deleteItem ∉ (open_detail_update_qty_and_collect wFailC7).2 ∧
    Action.returnToQuote ∉ (open_detail_update_qty_and_collect wFailC7).2 := by
  refine ⟨rfl, ?_, ?_⟩ <;> decide

/-- Witness for C7: a successful overlay-branch run (with nothing to
delete on the page) has attempted all cleanup actions. -/
theorem claim_C7_witness :
    Action.returnToQuote ∈ (open_detail_update_qty_and_collect wOkC7).2 ∧
    Action.deleteItem ∈ (open_detail_update_qty_and_collect wOkC7).2 ∧
    Action.closeModal ∈ (open_detail_update_qty_and_collect wOkC7).2 ∧
    Action.closeFancybox ∈ (open_detail_update_qty_and_collect wOkC7).2 :=
  claim_C7_theorem wOkC7 rfl

/-- C8: the sniffer's identifier list is sorted and duplicate-free, and
both empty-capture and nothing-parsed runs return the empty list (a
normal return, never an exception — the function is total). -/
theorem claim_C8_theorem (responses : List RespBody) :
    (log_network_parts responses).Sorted (· ≤ ·) ∧
    (log_network_parts responses).Nodup ∧
    (responses = [] → log_network_parts responses = []) ∧
    (collect_parts responses.reverse ∅ = ∅ → log_network_parts responses = []) := by
  refine ⟨?_, ?_, ?_, ?_⟩
  · unfold log_network_parts
    split
    · simp
    · dsimp only
      split
      · simp
      · exact Finset.sort_sorted _ _
  · unfold log_network_parts
    split
    · simp
    · dsimp only
      split
      · simp
      · exact Finset.sort_nodup _ _
  · intro h
    subst h
    rfl
  · intro h
    unfold log_network_parts
    split
    · rfl
    · dsimp only
      rw [if_pos h]

/-- Witness for C8: zero captured responses yield the empty identifier
list. -/
theorem claim_C8_witness : log_network_parts [] = [] :=
  (claim_C8_theorem []).2.2.1 rfl

theorem jsonl_processed_partnos_append (a b : List Dict) :
    jsonl_processed_partnos (a ++ b) =
      jsonl_processed_partnos a ++ jsonl_processed_partnos b := by
  simp [jsonl_processed_partnos, List.filterMap_append]

theorem stage4_pass_log_extends (step : String → Item → Except String Dict)
    (resume : Bool) (v : String) :
    ∀ (queue : List Item) (processed : List String) (log : List Dict),
      ∃ t, (stage4_pass step resume v queue processed log).log = log ++ t := by
  intro queue
  induction queue with
  | nil => exact fun processed log => ⟨[], by simp [stage4_pass]⟩
  | cons item rest ih =>
    intro processed log
    simp only [stage4_pass]
    split
    · exact ih _ _
    · split
      · exact ⟨[], by simp⟩
      · split
        · exact ⟨[], by simp⟩
        · rename_i pd new_rows heq
          obtain ⟨t, ht⟩ := ih (item.part_no :: processed) (log ++ new_rows)
          exact ⟨new_rows ++ t, by simp only [ht, List.append_assoc]⟩

theorem stage4_pass_attempts_not_processed (step : String → Item → Except String Dict)
    (v : String) :
    ∀ (queue : List Item) (processed : List String) (log : List Dict) (p : String),
      p ∈ processed → ∀ v',
        (v', p) ∉ (stage4_pass step true v queue processed log).attempts := by
  intro queue
  induction queue with
  | nil =>
    intro processed log p hp v' h
    simp [stage4_pass] at h
  | cons item rest ih =>
    intro processed log p hp v' h
    simp only [stage4_pass] at h
    by_cases hskip : (true && decide (item.part_no ∈ processed)) = true
    · rw [if_pos hskip] at h
      exact ih _ _ _ hp v' h
    · rw [if_neg hskip] at h
      have hpartno : p ≠ item.part_no := by
        intro hcon
        subst hcon
        exact hskip (by simp [hp])
      split at h
      · simp only [List.mem_singleton, Prod.mk.injEq] at h
        exact hpartno h.2
      · split at h
        · simp only [List.mem_singleton, Prod.mk.injEq] at h
          exact hpartno h.2
        · simp only [List.mem_cons, Prod.mk.injEq] at h
          rcases h with ⟨_, h2⟩ | h
          · exact hpartno h2
          · exact ih _ _ _ (List.mem_cons_of_mem _ hp) v' h

theorem stage4_pass_skip_all (step : String → Item → Except String Dict) (v : String) :
    ∀ (queue : List Item) (processed : List String) (log : List Dict),
      (∀ it ∈ queue, it.part_no ∈ processed) →
      stage4_pass step true v queue processed log = ⟨log, none, []⟩ := by
  intro queue
  induction queue with
  | nil => intro processed log _; rfl
  | cons item rest ih =>
    intro processed log hall
    simp only [stage4_pass]
    rw [if_pos (by simp [hall item (List.mem_cons_self _ _)])]
    exact ih _ _ (fun it hit => hall it (List.mem_cons_of_mem _ hit))

theorem run_stage4_attempts_not_recorded (step : String → Item → Except String Dict)
    (queue : List Item) (p : String) (log0 : List Dict)
    (hp : p ∈ jsonl_processed_partnos log0) :
    ∀ (variants : List String) (log : List Dict), (∃ t, log = log0 ++ t) →
      ∀ v', (v', p) ∉ (run_stage4 step queue true variants log).attempts := by
  intro variants
  induction variants with
  | nil =>
    intro log _ v' h
    simp [run_stage4] at h
  | cons v vs ih =>
    intro log hext v' h
    obtain ⟨t, hlog⟩ := hext
    have hpmem : p ∈ jsonl_processed_partnos log := by
      rw [hlog, jsonl_processed_partnos_append]
      exact List.mem_append_left _ hp
    simp only [run_stage4] at h
    split at h
    · exact stage4_pass_attempts_not_processed step v queue _ log p hpmem v' h
    · have h2 : (v', p) ∈
          (stage4_pass step true v queue (jsonl_processed_partnos log) log).attempts ++
            (run_stage4 step queue true vs
              (stage4_pass step true v queue (jsonl_processed_partnos log) log).log).attempts := h
      rcases List.mem_append.mp h2 with h1 | h1
      · exact stage4_pass_attempts_not_processed step v queue _ log p hpmem v' h1
      · obtain ⟨t2, ht2⟩ := stage4_pass_log_extends step true v queue
          (jsonl_processed_partnos log) log
        exact ih _ ⟨t ++ t2, by rw [ht2, hlog, List.append_assoc]⟩ v' h1

/-- C3: with resume enabled, no identifier whose reference is already in
the checkpoint log is ever attempted again (no re-extraction), and a
queue consisting entirely of already-recorded identifiers leaves the log
unchanged (no duplicate appended) with zero extraction attempts. -/
theorem claim_C3_theorem (step : String → Item → Except String Dict) (queue : List Item)
    (variants : List String) (log : List Dict) :
    (∀ v' p, (v', p) ∈ (run_stage4 step queue true variants log).attempts →
        p ∉ jsonl_processed_partnos log) ∧
    ((∀ it ∈ queue, it.part_no ∈ jsonl_processed_partnos log) →
        (run_stage4 step queue true variants log).log = log ∧
        (run_stage4 step queue true variants log).attempts = []) := by
  constructor
  · intro v' p hmem hp
    exact run_stage4_attempts_not_recorded step queue p log hp variants log
      ⟨[], by simp⟩ v' hmem
  · intro hall
    cases variants with
    | nil => exact ⟨rfl, rfl⟩
    | cons v vs =>
      have hpass := stage4_pass_skip_all step v queue (jsonl_processed_partnos log) log hall
      have key : run_stage4 step queue true (v :: vs) log =
          (match (stage4_pass step true v queue (jsonl_processed_partnos log) log).err with
           | none =>
             (⟨(stage4_pass step true v queue (jsonl_processed_partnos log) log).log, none,
               (stage4_pass step true v queue (jsonl_processed_partnos log) log).attempts⟩ :
               Stage4Out)
           | some _ =>
             let r2 := run_stage4 step queue true vs
               (stage4_pass step true v queue (jsonl_processed_partnos log) log).log
             ⟨r2.log, r2.err,
               (stage4_pass step true v queue (jsonl_processed_partnos log) log).attempts ++
                 r2.attempts⟩) := rfl
      rw [key, hpass]
      exact ⟨rfl, rfl⟩

/-- Witness for C3: re-running over a queue whose identifier `PART-A` is
already checkpointed performs no attempt and leaves the log unchanged. -/
theorem claim_C3_witness :
    (run_stage4 stepC3 [itemA] true ["stealth"] logC3).log = logC3 ∧
    (run_stage4 stepC3 [itemA] true ["stealth"] logC3).attempts = [] :=
  (claim_C3_theorem stepC3 [itemA] ["stealth"] logC3).2 (by
    intro it hit
    rw [List.mem_singleton] at hit
    subst hit
    decide)

/-- C2 (amended): a per-identifier extraction error is NOT handled per
identifier: it immediately ends the current variant's pass (the error is
recorded, later queue items are not attempted in that pass), and once
every session variant has been consumed the run fails fatally. -/
theorem claim_C2_theorem (step : String → Item → Except String Dict) (resume : Bool)
    (v : String) (item : Item) (rest : List Item) (processed : List String)
    (log : List Dict) (e : String)
    (hstep : step v item = .error e)
    (hskip : (resume && decide (item.part_no ∈ processed)) = false) :
    stage4_pass step resume v (item :: rest) processed log =
      ⟨log, some e, [(v, item.part_no)]⟩ ∧
    (∀ (q : List Item) (lg : List Dict),
      run_stage4 step q resume [] lg = ⟨lg, some "Stage 4 failed for all variants", []⟩) := by
  constructor
  · simp only [stage4_pass]
    rw [if_neg (by simp [hskip]), hstep]
  · intro q lg
    rfl

/-- Counterexample for C2: with one identifier raising the recoverable
convergence-wait error, the next identifier is never attempted and the
whole run ends in the fatal all-variants error — the batch does not
continue. -/
theorem claim_C2_counterexample :
    (run_stage4 stepFailC2 [itemA, itemB] true ["stealth"] []).err.isSome = true ∧
    (run_stage4 stepFailC2 [itemA, itemB] true ["stealth"] []).attempts =
      [("stealth", "PART-A")] ∧
    ("stealth", "PART-B") ∉ (run_stage4 stepFailC2 [itemA, itemB] true ["stealth"] []).attempts := by
  have hatt : (run_stage4 stepFailC2 [itemA, itemB] true ["stealth"] []).attempts =
      [("stealth", "PART-A")] := rfl
  refine ⟨rfl, hatt, ?_⟩
  rw [hatt]
  decide

/-- Witness for C2 (amended): the failing extraction ends the pass at once
and an empty variant list is fatal. -/
theorem claim_C2_witness :
    stage4_pass stepFailC2 true "stealth" [itemA, itemB] [] [] =
      ⟨[], some "After detailView: neither modal nor qty input", [("stealth", itemA.part_no)]⟩ ∧
    run_stage4 stepFailC2 [] true [] [] =
      ⟨[], some "Stage 4 failed for all variants", []⟩ := by
  have h := claim_C2_theorem stepFailC2 true "stealth" itemA [itemB] [] []
    "After detailView: neither modal nor qty input" rfl rfl
  exact ⟨h.1, h.2 [] []⟩

theorem foldl_subset {γ : Type} (f : Finset String → γ → Finset String)
    (hmono : ∀ acc a, acc ⊆ f acc a) :
    ∀ (l : List γ) (acc : Finset String), acc ⊆ l.foldl f acc := by
  intro l
  induction l with
  | nil => exact fun acc => Finset.Subset.refl _
  | cons x t ih => exact fun acc => (hmono acc x).trans (ih _)

theorem mem_foldl_of_mem {γ : Type} (f : Finset String → γ → Finset String)
    (hmono : ∀ acc a, acc ⊆ f acc a) (l : List γ) (a : γ) (ha : a ∈ l) (x : String)
    (hx : ∀ acc, x ∈ f acc a) : ∀ acc, x ∈ l.foldl f acc := by
  induction l with
  | nil => cases ha
  | cons b t ih =>
    intro acc
    rcases List.mem_cons.mp ha with h | h
    · subst h
      exact foldl_subset f hmono t (f acc a) (hx acc)
    · exact ih h _

theorem foldl_bound {γ : Type} (f : Finset String → γ → Finset String) (P : String → Prop)
    (hb : ∀ acc a x, x ∈ f acc a → x ∈ acc ∨ P x) :
    ∀ (l : List γ) (acc : Finset String) (x : String), x ∈ l.foldl f acc → x ∈ acc ∨ P x := by
  intro l
  induction l with
  | nil => exact fun acc x hx => Or.inl hx
  | cons b t ih =>
    intro acc x hx
    rcases ih _ _ hx with h | h
    · exact hb _ _ _ h
    · exact Or.inr h

theorem rowTokens_mono (row : JVal) (ps : Finset String) : ps ⊆ rowTokens row ps := by
  cases row <;> simp only [rowTokens] <;>
    first
      | exact Finset.Subset.refl _
      | exact foldl_subset _
          (fun acc c => by
            try dsimp only
            split
            · exact Finset.subset_insert _ _
            · exact Finset.Subset.refl _) _ _

theorem rowTokens_bound (row : JVal) (ps : Finset String) (x : String)
    (h : x ∈ rowTokens row ps) : x ∈ ps ∨ part_fullmatch x = true := by
  cases row <;> simp only [rowTokens] at h <;>
    first
      | exact Or.inl h
      | exact foldl_bound _ (fun s => part_fullmatch s = true)
          (fun acc a y hy => by
            try dsimp only at hy
            split at hy
            · rcases Finset.mem_insert.mp hy with h1 | h1
              · subst h1
                right
                assumption
              · exact Or.inl h1
            · exact Or.inl hy) _ _ _ h

theorem structured_parts_bound (fields : List (String × JVal)) (x : String)
    (h : x ∈ structured_parts fields) : part_fullmatch x = true := by
  unfold structured_parts at h
  dsimp only at h
  have hbase : ∀ y, y ∈ (["data", "aaData", "rows"].foldl
      (fun ps key =>
        match lget key fields with
        | some (.jarr rows) => rows.foldl (fun ps row => rowTokens row ps) ps
        | _ => ps) (∅ : Finset String)) → part_fullmatch y = true := by
    intro y hy
    rcases foldl_bound _ (fun s => part_fullmatch s = true)
        (fun acc a z hz => by
          try dsimp only at hz
          split at hz
          · exact foldl_bound _ (fun s => part_fullmatch s = true)
              (fun acc2 row z2 hz2 => rowTokens_bound row acc2 z2 hz2) _ _ _ hz
          · exact Or.inl hz) _ _ _ hy with h0 | h0
    · simp at h0
    · exact h0
  split at h
  · rcases foldl_bound _ (fun s => part_fullmatch s = true)
        (fun acc kv z hz => by
          try dsimp only at hz
          split at hz
          · split at hz
            · rcases Finset.mem_insert.mp hz with h1 | h1
              · subst h1
                right
                assumption
              · exact Or.inl h1
            · exact Or.inl hz
          · exact Or.inl hz) _ _ _ h with h0 | h0
    · exact hbase _ h0
    · exact h0
  · exact hbase _ h

theorem payload_struct_bound (js : Option JVal) (x : String)
    (h : x ∈ payload_struct js) : part_fullmatch x = true := by
  rcases js with _ | jv
  · simp [payload_struct] at h
  · cases jv <;> simp only [payload_struct] at h <;>
      first
        | (exact absurd h (by simp))
        | exact structured_parts_bound _ _ h

theorem extract_parts_mem_of_struct (js : Option JVal) (text : String) (x : String)
    (hx : x ∈ payload_struct js) : x ∈ extract_parts_from_any_payload js text := by
  unfold extract_parts_from_any_payload
  dsimp only
  split
  · exact Finset.mem_union_left _ hx
  · exact hx

theorem extract_parts_bound (js : Option JVal) (text : String) (x : String)
    (h : x ∈ extract_parts_from_any_payload js text) :
    part_fullmatch x = true ∨ x ∈ finditer_parts text := by
  unfold extract_parts_from_any_payload at h
  dsimp only at h
  split at h
  · rcases Finset.mem_union.mp h with h1 | h1
    · exact Or.inl (payload_struct_bound js x h1)
    · exact Or.inr (List.mem_toFinset.mp h1)
  · exact Or.inl (payload_struct_bound js x h)

theorem finditer_go_length :
    ∀ (fuel : ℕ) (cs : List Char) (x : String), x ∈ finditer_go fuel cs → 4 ≤ x.length := by
  intro fuel
  induction fuel with
  | zero =>
    intro cs x h
    simp [finditer_go] at h
  | succ n ih =>
    intro cs x h
    cases cs with
    | nil => simp [finditer_go] at h
    | cons c rest =>
      simp only [finditer_go] at h
      split at h
      · split at h
        · rcases List.mem_cons.mp h with h1 | h1
          · subst h1
            rename_i hfirst hlen
            show 4 ≤ (c :: ((rest.takeWhile partClassRest).take
              (min (rest.takeWhile partClassRest).length 30))).length
            simp only [List.length_cons, List.length_take]
            omega
          · exact ih _ _ h1
        · exact ih _ _ h
      · exact ih _ _ h

theorem finditer_parts_length (t : String) (x : String) (h : x ∈ finditer_parts t) :
    4 ≤ x.length :=
  finditer_go_length _ _ _ h

theorem structured_parts_mem_token (fields : List (String × JVal)) (rows : List JVal)
    (hdata : lget "data" fields = some (JVal.jarr rows))
    (hrow : rowC9 ∈ rows) :
    "AB-1234" ∈ structured_parts fields := by
  unfold structured_parts
  have hmono1 : ∀ (acc : Finset String) (key : String), acc ⊆
      (fun ps key =>
        match lget key fields with
        | some (.jarr rows) => rows.foldl (fun ps row => rowTokens row ps) ps
        | _ => ps) acc key := by
    intro acc key
    try dsimp only
    split
    · exact foldl_subset _ (fun acc2 row => rowTokens_mono row acc2) _ _
    · exact Finset.Subset.refl _
  have hcell : ∀ acc : Finset String, "AB-1234" ∈ rowTokens rowC9 acc := by
    intro acc
    show "AB-1234" ∈ rowTokens (JVal.jarr [JVal.jstr "x", JVal.jstr "AB-1234", JVal.jnum 3]) acc
    simp only [rowTokens]
    refine mem_foldl_of_mem _
      (fun acc2 cell => by
        try dsimp only
        split
        · exact Finset.subset_insert _ _
        · exact Finset.Subset.refl _)
      _ (JVal.jstr "AB-1234")
      (List.mem_cons_of_mem _ (List.mem_cons_self _ _)) _ ?_ acc
    intro acc2
    try dsimp only
    rw [if_pos (by decide)]
    exact Finset.mem_insert_self _ _
  have hkey : ∀ acc : Finset String, "AB-1234" ∈
      (fun ps key =>
        match lget key fields with
        | some (.jarr rows) => rows.foldl (fun ps row => rowTokens row ps) ps
        | _ => ps) acc "data" := by
    intro acc
    try dsimp only
    rw [hdata]
    exact mem_foldl_of_mem _ (fun acc2 row => rowTokens_mono row acc2) rows rowC9 hrow _
      hcell acc
  have hx : "AB-1234" ∈ (["data", "aaData", "rows"].foldl
      (fun ps key =>
        match lget key fields with
        | some (.jarr rows) => rows.foldl (fun ps row => rowTokens row ps) ps
        | _ => ps) (∅ : Finset String)) :=
    mem_foldl_of_mem _ hmono1 _ "data" (by simp) _ hkey ∅
  rw [if_neg (by
    intro hcon
    rw [hcon] at hx
    simp at hx)]
  exact hx

/-- C9: any JSON-object payload whose `data` array contains the row
`["x", "AB-1234", 3]` yields the identifier `AB-1234` and never yields
`"x"` or `"3"`: every emitted token either fullmatches the conservative
`PART_RE` shape or is a regex-scan token of at least 4 characters. -/
theorem claim_C9_theorem (fields : List (String × JVal)) (rows : List JVal)
    (hdata : lget "data" fields = some (JVal.jarr rows))
    (hrow : rowC9 ∈ rows) (text : String) :
    "AB-1234" ∈ extract_parts_from_any_payload (some (JVal.jobj fields)) text ∧
    "x" ∉ extract_parts_from_any_payload (some (JVal.jobj fields)) text ∧
    "3" ∉ extract_parts_from_any_payload (some (JVal.jobj fields)) text := by
  refine ⟨?_, ?_, ?_⟩
  · exact extract_parts_mem_of_struct _ text _
      (show "AB-1234" ∈ structured_parts fields from
        structured_parts_mem_token fields rows hdata hrow)
  · intro h
    rcases extract_parts_bound _ _ _ h with hf | hf
    · exact absurd hf (by decide)
    · exact absurd (finditer_parts_length text _ hf) (by decide)
  · intro h
    rcases extract_parts_bound _ _ _ h with hf | hf
    · exact absurd hf (by decide)
    · exact absurd (finditer_parts_length text _ hf) (by decide)

/-- Witness for C9: the spec's example payload. -/
theorem claim_C9_witness :
    "AB-1234" ∈ extract_parts_from_any_payload (some (JVal.jobj fieldsC9)) textC9 ∧
    "x" ∉ extract_parts_from_any_payload (some (JVal.jobj fieldsC9)) textC9 ∧
    "3" ∉ extract_parts_from_any_payload (some (JVal.jobj fieldsC9)) textC9 :=
  claim_C9_theorem fieldsC9 [rowC9] rfl (List.mem_singleton.mpr rfl) textC9

end Costex
